import Mathlib

/-!
Shallow embedding of `src/windows/rockup.c`, a native win32 launcher that
locates its own install root, derives the bundled Ruby interpreter and
script paths, assembles a child argument vector and spawns it.

Strings (`char*` buffers) are modelled as `List Char`; the `char**` argv
buffer as `List (Option (List Char))` where `none` is a NULL pointer slot.
Out-of-bounds accesses of the C code are modelled as `Option` failures.
-/

namespace Rockup

/-- Buffer capacity from the source: `#define SZ 32767`. -/
def SZ : Nat := 32767

/-- The Windows path separator scanned for by the truncation loop. -/
def sep : Char := '\\'

/-- Backward separator scan, modelling `while(root[--i] != '\\');` entered
with index `i`: the index is pre-decremented, then the character is tested,
until a separator is found.  `none` models the underflow past index 0
(an out-of-bounds access in the C code). -/
def scanSep (s : List Char) : Nat → Option Nat
  | 0 => none
  | i + 1 => if s[i]? = some sep then some i else scanSep s i

/-- Lines 20-21: `i = strlen(root); while(root[--i] != '\\');
while(root[--i] != '\\'); root[i] = '\0';` — the two backward scans followed
by truncation at the second separator found, producing the install root. -/
def truncateTwice (s : List Char) : Option (List Char) :=
  (scanSep s s.length).bind fun i =>
    (scanSep s i).bind fun j => some (s.take j)

/-- The fixed interpreter suffix from line 23: `"%s\\ruby\\bin\\ruby.exe"`. -/
def rubySuffix : List Char := "\\ruby\\bin\\ruby.exe".data

/-- The fixed script suffix from line 25: `"%s\\ruby\\bin\\rockup"`. -/
def rockupSuffix : List Char := "\\ruby\\bin\\rockup".data

/-- Model of `snprintf(buf, SZ, "%s<suffix>", root)`: the formatted output is
the concatenation, silently truncated to at most `SZ - 1` characters (the
final byte of the buffer is reserved for the terminating NUL). -/
def snprintfCat (root suffix : List Char) : List Char :=
  (root ++ suffix).take (SZ - 1)

/-- Line 23: the path to the Ruby interpreter. -/
def interpreterPath (root : List Char) : List Char :=
  snprintfCat root rubySuffix

/-- Line 25: the path to the Ruby script. -/
def scriptPath (root : List Char) : List Char :=
  snprintfCat root rockupSuffix

/-- Sequential stores `argv[i++] = entry` into the argv buffer (lines 27-32).
A store past the end of the buffer is out of bounds in the C code and is
modelled as failure `none`. -/
def writeSlots (buf : List (Option (List Char))) (i : Nat) :
    List (List Char) → Option (List (Option (List Char)))
  | [] => some buf
  | a :: rest =>
    if i < buf.length then writeSlots (buf.set i (some a)) (i + 1) rest
    else none

/-- Lines 26-32: `calloc(SZ, sizeof(char*))` zero-initialises the buffer
(all slots NULL); then the interpreter path, the script path and the
caller's arguments from index 1 on are stored in order. -/
def childArgvBuf (root : List Char) (argvIn : List (List Char)) :
    Option (List (Option (List Char))) :=
  writeSlots (List.replicate SZ none) 0
    (interpreterPath root :: scriptPath root :: argvIn.drop 1)

/-- The argument vector a NULL-terminated-array consumer (`_spawnvp`, or the
debug `while(argv[i])` print loop) reads from the buffer: the slots up to the
first NULL. -/
def effectiveArgs : List (Option (List Char)) → List (List Char)
  | [] => []
  | none :: _ => []
  | some a :: rest => a :: effectiveArgs rest

/-- The child argument vector actually assembled for a given install root and
input argv (empty if the buffer construction goes out of bounds). -/
def assembledArgs (root : List Char) (argvIn : List (List Char)) :
    List (List Char) :=
  ((childArgvBuf root argvIn).map effectiveArgs).getD []

/-- Slot `j` of the assembled argv buffer, if the buffer was built in bounds
and `j` is in range. -/
def assembledSlot (root : List Char) (argvIn : List (List Char)) (j : Nat) :
    Option (Option (List Char)) :=
  (childArgvBuf root argvIn).bind fun buf => buf[j]?

/-- Outcome of the `_spawnvp(_P_WAIT, ...)` call: either the child ran to
completion with some exit status, or spawning failed and the primitive
returned an error indicator. -/
inductive SpawnOutcome where
  | completed (status : Nat)
  | failed (err : Int)
deriving DecidableEq

/-- The value the `_spawnvp` primitive returns to its caller: the child's
exit status on completion, the failure indicator otherwise. -/
def spawnvpResult : SpawnOutcome → Int
  | .completed s => Int.ofNat s
  | .failed e => e

/-- Line 39: `return _spawnvp(_P_WAIT, argv[0], argv);` — the spawn result is
returned unchanged as the launcher's own exit status. -/
def mainExitCode (o : SpawnOutcome) : Int :=
  spawnvpResult o

/-- The debug line `printf("argc = %d\n", _argc)` (line 13). -/
def argcLine (argvIn : List (List Char)) : List Char :=
  "argc = ".data ++ (toString argvIn.length).data

/-- Whole-program model of `main`: given the build flag (`debug` true when
`NDEBUG` is not defined), the self path reported by `GetModuleFileName`, the
input argv and the outcome of the spawn, produce the printed diagnostic
lines and the exit code.  `none` models the undefined behaviour when the
backward scan underflows or an argv store goes out of bounds. -/
def mainModel (debug : Bool) (selfPath : List Char)
    (argvIn : List (List Char)) (o : SpawnOutcome) :
    Option (List (List Char) × Int) :=
  (truncateTwice selfPath).bind fun root =>
    (childArgvBuf root argvIn).bind fun buf =>
      let pre :=
        if debug then argcLine argvIn :: argvIn.map (fun a => '^' :: ' ' :: a)
        else []
      let post :=
        if debug then (effectiveArgs buf).map (fun a => '>' :: ' ' :: a)
        else []
      some (pre ++ post, spawnvpResult o)

/-! ## Helper lemmas about the argv buffer -/

theorem take_set_succ {α : Type} (a : α) (l : List α) :
    ∀ i : Nat, i < l.length → (l.set i a).take (i + 1) = l.take i ++ [a] := by
  induction l with
  | nil => intro i h; simp at h
  | cons x xs ih =>
    intro i h
    cases i with
    | zero => rfl
    | succ i =>
      rw [List.set_cons_succ, List.take_succ_cons, ih i (by simpa using h),
        List.take_succ_cons, List.cons_append]

theorem writeSlots_eq (es : List (List Char)) :
    ∀ (buf : List (Option (List Char))) (i : Nat), i + es.length ≤ buf.length →
      writeSlots buf i es =
        some (buf.take i ++ es.map some ++ buf.drop (i + es.length)) := by
  induction es with
  | nil =>
    intro buf i _
    simp [writeSlots]
  | cons a rest ih =>
    intro buf i h
    have hi : i < buf.length := by
      simp only [List.length_cons] at h; omega
    simp only [writeSlots, if_pos hi]
    rw [ih (buf.set i (some a)) (i + 1)
      (by simp only [List.length_set]; simp only [List.length_cons] at h; omega)]
    rw [take_set_succ (some a) buf i hi, List.drop_set]
    rw [if_pos (by omega : i < i + 1 + rest.length)]
    have harith : i + 1 + rest.length = i + (a :: rest).length := by
      simp [List.length_cons]; omega
    rw [harith]
    simp [List.append_assoc]

theorem effectiveArgs_append_none (es : List (List Char))
    (t : List (Option (List Char))) :
    effectiveArgs (es.map some ++ none :: t) = es := by
  induction es with
  | nil => rfl
  | cons a rest ih => simp [effectiveArgs, ih]

theorem effectiveArgs_padded (es : List (List Char)) (k : Nat) (hk : 0 < k) :
    effectiveArgs (es.map some ++ List.replicate k none) = es := by
  obtain ⟨m, rfl⟩ : ∃ m, k = m + 1 := ⟨k - 1, by omega⟩
  rw [List.replicate_succ, effectiveArgs_append_none]

theorem childArgvBuf_eq (root : List Char) (argvIn : List (List Char))
    (h : 2 + (argvIn.drop 1).length ≤ SZ) :
    childArgvBuf root argvIn =
      some ((interpreterPath root :: scriptPath root :: argvIn.drop 1).map some
        ++ List.replicate (SZ - (2 + (argvIn.drop 1).length)) none) := by
  unfold childArgvBuf
  rw [writeSlots_eq _ _ 0 (by simp only [List.length_replicate,
    List.length_cons, Nat.zero_add]; omega)]
  rw [List.take_zero, List.nil_append, List.drop_replicate]
  have hlen : (0 : Nat) +
      (interpreterPath root :: scriptPath root :: argvIn.drop 1).length =
      2 + (argvIn.drop 1).length := by
    simp only [List.length_cons]; omega
  rw [hlen]

theorem assembledArgs_eq (root : List Char) (argvIn : List (List Char))
    (h : 2 + (argvIn.drop 1).length < SZ) :
    assembledArgs root argvIn =
      interpreterPath root :: scriptPath root :: argvIn.drop 1 := by
  unfold assembledArgs
  rw [childArgvBuf_eq root argvIn (Nat.le_of_lt h)]
  rw [Option.map_some', Option.getD_some]
  exact effectiveArgs_padded _ _ (by omega)

theorem assembledSlot_null (root : List Char) (argvIn : List (List Char))
    (j : Nat) (hcap : 2 + (argvIn.drop 1).length ≤ SZ)
    (hj1 : 2 + (argvIn.drop 1).length ≤ j) (hj2 : j < SZ) :
    assembledSlot root argvIn j = some none := by
  unfold assembledSlot
  rw [childArgvBuf_eq root argvIn hcap, Option.some_bind]
  rw [List.getElem?_append_right
    (by simp only [List.length_map, List.length_cons]; omega)]
  rw [List.getElem?_replicate]
  rw [if_pos (by simp only [List.length_map, List.length_cons]; omega)]

/-! ## Helper lemmas about the backward separator scan -/

theorem scanSep_peel (s : List Char) (i : Nat) :
    ∀ k : Nat, (∀ m, i ≤ m → m < i + k → s[m]? ≠ some sep) →
      scanSep s (i + k) = scanSep s i := by
  intro k
  induction k with
  | zero => intro _; rfl
  | succ k ih =>
    intro h
    have hik : i + (k + 1) = (i + k) + 1 := rfl
    rw [hik]
    simp only [scanSep]
    rw [if_neg (h (i + k) (by omega) (by omega))]
    exact ih (fun m h1 h2 => h m h1 (by omega))

theorem scanSep_hit (s : List Char) (i : Nat) (h : s[i]? = some sep) :
    scanSep s (i + 1) = some i := by
  simp [scanSep, h]

theorem scanSep_some (s : List Char) :
    ∀ i j, scanSep s i = some j →
      j < i ∧ s[j]? = some sep ∧ ∀ k, j < k → k < i → s[k]? ≠ some sep := by
  intro i
  induction i with
  | zero => intro j h; simp [scanSep] at h
  | succ i ih =>
    intro j h
    simp only [scanSep] at h
    by_cases hc : s[i]? = some sep
    · rw [if_pos hc] at h
      injection h with h
      subst h
      exact ⟨Nat.lt_succ_self i, hc, fun k h1 h2 => absurd h2 (by omega)⟩
    · rw [if_neg hc] at h
      obtain ⟨h1, h2, h3⟩ := ih j h
      refine ⟨by omega, h2, ?_⟩
      intro k hk1 hk2
      rcases Nat.lt_succ_iff_lt_or_eq.mp hk2 with h4 | h4
      · exact h3 k hk1 h4
      · subst h4; exact hc

theorem scanSep_isSome (s : List Char) :
    ∀ i, (∃ j, j < i ∧ s[j]? = some sep) → (scanSep s i).isSome := by
  intro i
  induction i with
  | zero =>
    rintro ⟨j, hj, _⟩
    omega
  | succ i ih =>
    rintro ⟨j, hj, hsep⟩
    simp only [scanSep]
    by_cases hc : s[i]? = some sep
    · rw [if_pos hc]; rfl
    · rw [if_neg hc]
      apply ih
      refine ⟨j, ?_, hsep⟩
      have hne : j ≠ i := fun hji => hc (hji ▸ hsep)
      omega

theorem exists_two_seps (s : List Char) (h : 2 ≤ s.count sep) :
    ∃ j1 j2, j1 < j2 ∧ j2 < s.length ∧
      s[j1]? = some sep ∧ s[j2]? = some sep := by
  induction s with
  | nil => simp [List.count_nil] at h
  | cons x xs ih =>
    by_cases hx : x = sep
    · subst hx
      have h1 : 1 ≤ xs.count sep := by
        rw [List.count_cons] at h
        simp only [beq_self_eq_true, if_pos] at h
        omega
      have hmem : sep ∈ xs := List.count_pos_iff.mp (by omega)
      obtain ⟨n, hn, hget⟩ := List.getElem_of_mem hmem
      refine ⟨0, n + 1, by omega, by simp [List.length_cons]; omega, ?_, ?_⟩
      · simp
      · rw [List.getElem?_cons_succ]
        simp [List.getElem?_eq_getElem hn, hget]
    · have hcount : 2 ≤ xs.count sep := by
        rw [List.count_cons] at h
        simp only [beq_iff_eq, if_neg hx] at h
        omega
      obtain ⟨j1, j2, h12, h2len, hs1, hs2⟩ := ih hcount
      refine ⟨j1 + 1, j2 + 1, by omega, by simp [List.length_cons]; omega,
        ?_, ?_⟩
      · rw [List.getElem?_cons_succ]; exact hs1
      · rw [List.getElem?_cons_succ]; exact hs2

/-! ## Claim theorems -/

/-- C2: for every self path whose last two segments are `b` (the containing
directory name) and `c` (the executable filename), neither containing a
separator, the backward-truncation step yields exactly the path with those
two segments removed: the grandparent directory `a` of the launcher
binary. -/
theorem truncateTwice_strips_last_two (a b c : List Char)
    (hb : sep ∉ b) (hc : sep ∉ c) :
    truncateTwice ((a ++ sep :: b) ++ sep :: c) = some a := by
  have hslen : ((a ++ sep :: b) ++ sep :: c).length =
      ((a ++ sep :: b).length + 1) + c.length := by
    simp only [List.length_append, List.length_cons]
    omega
  have hsep2 : ((a ++ sep :: b) ++ sep :: c)[(a ++ sep :: b).length]? =
      some sep := by
    rw [List.getElem?_append_right (Nat.le_refl _)]
    simp
  have hscan1 : scanSep ((a ++ sep :: b) ++ sep :: c)
      ((a ++ sep :: b) ++ sep :: c).length = some (a ++ sep :: b).length := by
    rw [hslen]
    rw [scanSep_peel _ _ c.length ?hc1]
    case hc1 =>
      intro m h1 h2 hmem
      rw [List.getElem?_append_right (by omega)] at hmem
      have hm : m - (a ++ sep :: b).length = (m - (a ++ sep :: b).length - 1) + 1 := by
        omega
      rw [hm, List.getElem?_cons_succ] at hmem
      exact hc (List.getElem?_mem hmem)
    exact scanSep_hit _ _ hsep2
  have hsep1 : ((a ++ sep :: b) ++ sep :: c)[a.length]? = some sep := by
    rw [List.getElem?_append_left
      (by simp only [List.length_append, List.length_cons]; omega)]
    rw [List.getElem?_append_right (Nat.le_refl _)]
    simp
  have hscan2 : scanSep ((a ++ sep :: b) ++ sep :: c)
      (a ++ sep :: b).length = some a.length := by
    have hl1 : (a ++ sep :: b).length = (a.length + 1) + b.length := by
      simp only [List.length_append, List.length_cons]
      omega
    rw [hl1]
    rw [scanSep_peel _ _ b.length ?hb1]
    case hb1 =>
      intro m h1 h2 hmem
      rw [List.getElem?_append_left
        (by simp only [List.length_append, List.length_cons]; omega)] at hmem
      rw [List.getElem?_append_right (by omega)] at hmem
      have hm : m - a.length = (m - a.length - 1) + 1 := by omega
      rw [hm, List.getElem?_cons_succ] at hmem
      exact hb (List.getElem?_mem hmem)
    exact scanSep_hit _ _ hsep1
  unfold truncateTwice
  rw [hscan1, Option.some_bind, hscan2, Option.some_bind]
  rw [List.append_assoc, List.take_left' rfl]

/-- Witness for C2 at the concrete self path `C:\app\bin\rockup.exe`:
the install root is `C:\app`. -/
theorem truncateTwice_strips_last_two_witness :
    sep ∉ ("bin".data) ∧ sep ∉ ("rockup.exe".data) ∧
    truncateTwice (("C:\\app".data ++ sep :: "bin".data) ++
      sep :: "rockup.exe".data) = some ("C:\\app".data) :=
  ⟨by decide, by decide,
    truncateTwice_strips_last_two ("C:\\app".data) ("bin".data)
      ("rockup.exe".data) (by decide) (by decide)⟩

/-- C6: for every self path containing at least two separator characters,
the backward scan of the truncation step stays inside the string (the
out-of-bounds underflow branch, modelled as `none`, is unreachable) and
produces a result. -/
theorem truncateTwice_in_bounds (s : List Char) (h : 2 ≤ s.count sep) :
    (truncateTwice s).isSome := by
  obtain ⟨j1, j2, h12, h2len, hs1, hs2⟩ := exists_two_seps s h
  have h1 : (scanSep s s.length).isSome := scanSep_isSome s _ ⟨j2, h2len, hs2⟩
  obtain ⟨i, hi⟩ := Option.isSome_iff_exists.mp h1
  obtain ⟨hilt, hisep, himax⟩ := scanSep_some s s.length i hi
  have hj2i : j2 ≤ i := by
    by_contra hcon
    exact himax j2 (by omega) h2len hs2
  have h2 : (scanSep s i).isSome := scanSep_isSome s i ⟨j1, by omega, hs1⟩
  obtain ⟨j, hj⟩ := Option.isSome_iff_exists.mp h2
  unfold truncateTwice
  rw [hi, Option.some_bind, hj, Option.some_bind]
  rfl

/-- Witness for C6 at the concrete self path `C:\a\b`, which contains two
separators. -/
theorem truncateTwice_in_bounds_witness :
    2 ≤ ("C:\\a\\b".data).count sep ∧
    (truncateTwice ("C:\\a\\b".data)).isSome :=
  ⟨by decide, truncateTwice_in_bounds ("C:\\a\\b".data) (by decide)⟩

/-- C1: for every input argument vector `p0 :: ps` whose entries fit the
argv buffer, the assembled child argument vector is exactly
`[InterpreterPath, ScriptPath, p1, ..., pn]` followed by the NULL sentinel:
the two derived paths come first, `p0` is dropped, the callers' arguments
keep their relative order, and the slot after the last entry is NULL.
With `ps = []` this specialises to `[InterpreterPath, ScriptPath, NULL]`. -/
theorem childArgv_assembly (root p0 : List Char) (ps : List (List Char))
    (h : 2 + ps.length < SZ) :
    assembledArgs root (p0 :: ps) =
      interpreterPath root :: scriptPath root :: ps ∧
    assembledSlot root (p0 :: ps) (2 + ps.length) = some none := by
  have hd : (p0 :: ps).drop 1 = ps := rfl
  constructor
  · rw [assembledArgs_eq root (p0 :: ps) (by exact h), hd]
  · exact assembledSlot_null root (p0 :: ps) (2 + ps.length)
      (by exact Nat.le_of_lt h) (Nat.le_refl _) (by exact h)

/-- Witness for C1: invoked as `launcher x` from install root `C:\app`,
the child vector is `[C:\app\ruby\bin\ruby.exe, C:\app\ruby\bin\rockup, x]`
followed by NULL. -/
theorem childArgv_assembly_witness :
    2 + [("x".data)].length < SZ ∧
    (assembledArgs ("C:\\app".data) [("launcher".data), ("x".data)] =
      interpreterPath ("C:\\app".data) :: scriptPath ("C:\\app".data) ::
        [("x".data)] ∧
    assembledSlot ("C:\\app".data) [("launcher".data), ("x".data)] 3 =
      some none) :=
  ⟨by decide,
    childArgv_assembly ("C:\\app".data) ("launcher".data) [("x".data)]
      (by decide)⟩

/-- C10: the argv buffer is zero-initialised by `calloc` and the NULL
terminator is never stored explicitly; whenever the entry count (two derived
paths plus the forwarded arguments) is strictly below the buffer capacity,
every slot from the entry count up to the capacity is NULL, so the vector
handed to `_spawnvp` is NULL-terminated. -/
theorem argvBuf_null_padding (root : List Char) (argvIn : List (List Char))
    (h : 2 + (argvIn.drop 1).length < SZ) :
    ∀ j, 2 + (argvIn.drop 1).length ≤ j → j < SZ →
      assembledSlot root argvIn j = some none := by
  intro j hj1 hj2
  exact assembledSlot_null root argvIn j (Nat.le_of_lt h) hj1 hj2

/-- Witness for C10: with one forwarded argument, slot 7 of the buffer is
still NULL. -/
theorem argvBuf_null_padding_witness :
    2 + (([("launcher".data), ("x".data)] : List (List Char)).drop 1).length
      < SZ ∧
    assembledSlot ("C:\\app".data) [("launcher".data), ("x".data)] 7 =
      some none :=
  ⟨by decide,
    argvBuf_null_padding ("C:\\app".data) [("launcher".data), ("x".data)]
      (by decide) 7 (by decide) (by decide)⟩

/-- Counterexample for C3 as stated: the derived interpreter path is NOT the
byte-for-byte concatenation for every install root — for a root of 32766
characters the `snprintf` bound `SZ` truncates the result. -/
theorem pathConcat_counterexample :
    ¬ (interpreterPath (List.replicate 32766 'a') =
        List.replicate 32766 'a' ++ rubySuffix) := by
  intro hEq
  have hruby : rubySuffix.length = 18 := by decide
  have hlen := congrArg List.length hEq
  rw [interpreterPath, snprintfCat] at hlen
  simp only [List.length_take, List.length_append, List.length_replicate,
    hruby, SZ] at hlen
  omega

/-- C3 amended: whenever the install root plus the fixed suffix fits within
the `snprintf` bound `SZ - 1`, each derived path is exactly the install root
concatenated with its fixed suffix, byte-for-byte. -/
theorem paths_are_concat (root : List Char)
    (h1 : root.length + rubySuffix.length ≤ SZ - 1)
    (h2 : root.length + rockupSuffix.length ≤ SZ - 1) :
    interpreterPath root = root ++ rubySuffix ∧
    scriptPath root = root ++ rockupSuffix := by
  constructor
  · rw [interpreterPath, snprintfCat]
    exact List.take_of_length_le (by simp only [List.length_append]; omega)
  · rw [scriptPath, snprintfCat]
    exact List.take_of_length_le (by simp only [List.length_append]; omega)

/-- Witness for the amended C3 at the concrete install root `C:\app`. -/
theorem paths_are_concat_witness :
    ("C:\\app".data).length + rubySuffix.length ≤ SZ - 1 ∧
    ("C:\\app".data).length + rockupSuffix.length ≤ SZ - 1 ∧
    (interpreterPath ("C:\\app".data) = "C:\\app".data ++ rubySuffix ∧
      scriptPath ("C:\\app".data) = "C:\\app".data ++ rockupSuffix) :=
  ⟨by decide, by decide,
    paths_are_concat ("C:\\app".data) (by decide) (by decide)⟩

/-- C7: when the install root plus a fixed suffix exceeds the maximum
formatted length `SZ - 1`, the concatenation step silently produces the
truncated prefix: the result is exactly the first `SZ - 1` characters of the
full concatenation — a prefix of the intended path of maximal length — and
the (total) formatting step yields no failure indication of any kind. -/
theorem snprintf_truncates (root suffix : List Char)
    (h : SZ - 1 < (root ++ suffix).length) :
    snprintfCat root suffix = (root ++ suffix).take (SZ - 1) ∧
    (snprintfCat root suffix).length = SZ - 1 ∧
    snprintfCat root suffix <+: root ++ suffix := by
  refine ⟨rfl, ?_, List.take_prefix _ _⟩
  simp only [snprintfCat, List.length_take]
  omega

/-- Witness for C7 at a root of 32766 characters plus the interpreter
suffix, whose concatenation exceeds the bound. -/
theorem snprintf_truncates_witness :
    SZ - 1 < (List.replicate 32766 'a' ++ rubySuffix).length ∧
    (snprintfCat (List.replicate 32766 'a') rubySuffix =
        (List.replicate 32766 'a' ++ rubySuffix).take (SZ - 1) ∧
      (snprintfCat (List.replicate 32766 'a') rubySuffix).length = SZ - 1 ∧
      snprintfCat (List.replicate 32766 'a') rubySuffix <+:
        List.replicate 32766 'a' ++ rubySuffix) := by
  have hlt : SZ - 1 < (List.replicate 32766 'a' ++ rubySuffix).length := by
    have hruby : rubySuffix.length = 18 := by decide
    simp only [List.length_append, List.length_replicate, hruby, SZ]
    omega
  exact ⟨hlt, snprintf_truncates _ _ hlt⟩

/-- Counterexample for C8 as stated: invoked as `launcher foo.txt --verbose`
with install root `/opt/app`, the assembled vector is NOT
`["/opt/app/ruby/bin/ruby", "/opt/app/ruby/bin/rockup", "foo.txt",
"--verbose"]` — the code joins with backslashes and appends `.exe` to the
interpreter name. -/
theorem scenario_counterexample :
    ¬ (assembledArgs ("/opt/app".data)
        [("launcher".data), ("foo.txt".data), ("--verbose".data)] =
      [("/opt/app/ruby/bin/ruby".data), ("/opt/app/ruby/bin/rockup".data),
        ("foo.txt".data), ("--verbose".data)]) := by
  rw [assembledArgs_eq _ _ (by decide)]
  decide

/-- C8 amended: invoked as `launcher foo.txt --verbose` with install root
`/opt/app`, the assembled child vector is
`["/opt/app\ruby\bin\ruby.exe", "/opt/app\ruby\bin\rockup", "foo.txt",
"--verbose"]` followed by the NULL sentinel. -/
theorem scenario_amended :
    assembledArgs ("/opt/app".data)
        [("launcher".data), ("foo.txt".data), ("--verbose".data)] =
      [("/opt/app\\ruby\\bin\\ruby.exe".data),
        ("/opt/app\\ruby\\bin\\rockup".data),
        ("foo.txt".data), ("--verbose".data)] ∧
    assembledSlot ("/opt/app".data)
      [("launcher".data), ("foo.txt".data), ("--verbose".data)] 4 =
      some none := by
  constructor
  · rw [assembledArgs_eq _ _ (by decide)]
    decide
  · exact assembledSlot_null _ _ 4 (by decide) (by decide) (by decide)

/-- C4: whenever the spawned child runs to completion, the launcher's own
exit status equals the child's exit status, for any child exit code. -/
theorem exit_propagates (dbg : Bool) (p root : List Char)
    (argvIn : List (List Char)) (s : Nat)
    (h1 : truncateTwice p = some root)
    (h2 : 2 + (argvIn.drop 1).length ≤ SZ) :
    (mainModel dbg p argvIn (.completed s)).map Prod.snd =
      some (Int.ofNat s) := by
  unfold mainModel
  rw [h1, Option.some_bind, childArgvBuf_eq root argvIn h2, Option.some_bind]
  rfl

/-- Witness for C4: a child exiting with status 42 makes the launcher exit
with 42. -/
theorem exit_propagates_witness :
    truncateTwice ("C:\\app\\bin\\r.exe".data) = some ("C:\\app".data) ∧
    2 + (([("launcher".data)] : List (List Char)).drop 1).length ≤ SZ ∧
    (mainModel false ("C:\\app\\bin\\r.exe".data) [("launcher".data)]
      (.completed 42)).map Prod.snd = some (Int.ofNat 42) :=
  ⟨by decide, by decide,
    exit_propagates false ("C:\\app\\bin\\r.exe".data) ("C:\\app".data)
      [("launcher".data)] 42 (by decide) (by decide)⟩

/-- C5: if the spawn fails, the failure indicator returned by `_spawnvp`
becomes the launcher's exit status, and in a release build nothing is
printed and no other observable action occurs (the result is exactly the
empty output together with that exit status). -/
theorem spawnFailure_exit (p root : List Char) (argvIn : List (List Char))
    (e : Int) (h1 : truncateTwice p = some root)
    (h2 : 2 + (argvIn.drop 1).length ≤ SZ) :
    mainModel false p argvIn (.failed e) = some ([], e) := by
  unfold mainModel
  rw [h1, Option.some_bind, childArgvBuf_eq root argvIn h2, Option.some_bind]
  rfl

/-- Witness for C5: a spawn failure indicator of -1 becomes the exit status,
with no output. -/
theorem spawnFailure_exit_witness :
    truncateTwice ("C:\\app\\bin\\r.exe".data) = some ("C:\\app".data) ∧
    2 + (([("launcher".data)] : List (List Char)).drop 1).length ≤ SZ ∧
    mainModel false ("C:\\app\\bin\\r.exe".data) [("launcher".data)]
      (.failed (-1)) = some ([], -1) :=
  ⟨by decide, by decide,
    spawnFailure_exit ("C:\\app\\bin\\r.exe".data) ("C:\\app".data)
      [("launcher".data)] (-1) (by decide) (by decide)⟩

/-- C9: a debug build prints the argument count and every input argument
prefixed with the `^ ` marker before dispatch, then every assembled child
argument prefixed with the `> ` marker before spawning; a release build
prints nothing at all. -/
theorem diagnostic_output (p root : List Char) (argvIn : List (List Char))
    (o : SpawnOutcome)
    (h1 : truncateTwice p = some root)
    (h2 : 2 + (argvIn.drop 1).length < SZ) :
    (mainModel false p argvIn o).map Prod.fst = some [] ∧
    (mainModel true p argvIn o).map Prod.fst =
      some (argcLine argvIn :: (argvIn.map fun a => '^' :: ' ' :: a) ++
        ((interpreterPath root :: scriptPath root :: argvIn.drop 1).map
          fun a => '>' :: ' ' :: a)) := by
  unfold mainModel
  rw [h1, Option.some_bind, Option.some_bind,
    childArgvBuf_eq root argvIn (Nat.le_of_lt h2),
    Option.some_bind, Option.some_bind]
  rw [effectiveArgs_padded
    (interpreterPath root :: scriptPath root :: argvIn.drop 1)
    (SZ - (2 + (argvIn.drop 1).length)) (by omega)]
  exact ⟨rfl, rfl⟩

/-- Witness for C9 at a concrete debug and release invocation. -/
theorem diagnostic_output_witness :
    truncateTwice ("C:\\app\\bin\\r.exe".data) = some ("C:\\app".data) ∧
    2 + (([("launcher".data), ("x".data)] : List (List Char)).drop 1).length
      < SZ ∧
    ((mainModel false ("C:\\app\\bin\\r.exe".data)
        [("launcher".data), ("x".data)] (.completed 0)).map Prod.fst =
      some [] ∧
    (mainModel true ("C:\\app\\bin\\r.exe".data)
        [("launcher".data), ("x".data)] (.completed 0)).map Prod.fst =
      some (argcLine [("launcher".data), ("x".data)] ::
        ([("launcher".data), ("x".data)].map fun a => '^' :: ' ' :: a) ++
        ((interpreterPath ("C:\\app".data) :: scriptPath ("C:\\app".data) ::
          [("launcher".data), ("x".data)].drop 1).map
            fun a => '>' :: ' ' :: a))) :=
  ⟨by decide, by decide,
    diagnostic_output ("C:\\app\\bin\\r.exe".data) ("C:\\app".data)
      [("launcher".data), ("x".data)] (.completed 0) (by decide) (by decide)⟩

end Rockup
